import Mathlib

/-!
# Verification of the multimodal-AI tutorial notebooks

Shallow embedding of the data-mapping code of the repository's notebooks
(image captioning / VQA, text-to-speech, document VQA) and proofs of the
properties claimed about them.

Conventions of the embedding:
* Python strings are `List Char`; Python lists are `List _`.
* Python floats that are only stored and moved around (answer weights,
  audio samples, spectrogram values) are modelled as `ℚ` or `ℤ`; no claim
  depends on floating-point arithmetic.
* A Python dict built by a comprehension is modelled as the list of its
  (key, value) pairs in insertion order, with a last-binding-wins lookup
  (`dictGet`), which is exactly how repeated keys behave in a dict
  comprehension.
* A fallible operation (a `d[k]` lookup that can raise `KeyError`) returns
  `Option`.
-/

namespace MultimodalAI

/-- Lookup in a Python dict built from a list of (key, value) pairs:
the binding added last wins, a missing key gives `none`. -/
def dictGet {α β : Type} [DecidableEq α] : List (α × β) → α → Option β
  | [], _ => none
  | p :: ps, k =>
    match dictGet ps k with
    | some v => some v
    | none => if p.1 = k then some p.2 else none

theorem dictGet_nil {α β : Type} [DecidableEq α] (k : α) :
    dictGet ([] : List (α × β)) k = none := rfl

/-- A key that occurs in no pair is absent from the dict. -/
theorem dictGet_eq_none_of_not_mem {α β : Type} [DecidableEq α]
    (ps : List (α × β)) (k : α) (h : k ∉ ps.map Prod.fst) :
    dictGet ps k = none := by
  induction ps with
  | nil => rfl
  | cons p ps ih =>
    simp only [List.map_cons, List.mem_cons, not_or] at h
    simp only [dictGet, ih h.2]
    have : ¬p.1 = k := fun hk => h.1 hk.symm
    simp [this]

/-- A key that occurs in some pair is present in the dict. -/
theorem isSome_dictGet_of_mem {α β : Type} [DecidableEq α]
    (ps : List (α × β)) (k : α) (h : k ∈ ps.map Prod.fst) :
    (dictGet ps k).isSome := by
  induction ps with
  | nil => simp at h
  | cons p ps ih =>
    simp only [dictGet]
    cases hps : dictGet ps k with
    | some v => simp
    | none =>
      simp only [List.map_cons, List.mem_cons] at h
      rcases h with h | h
      · simp [h]
      · have := ih h
        rw [hps] at this
        simp at this

/-- Over pairwise-distinct keys, dict lookup agrees with pair membership. -/
theorem dictGet_eq_some_iff_mem {α β : Type} [DecidableEq α]
    (ps : List (α × β)) (hnd : (ps.map Prod.fst).Nodup) (k : α) (v : β) :
    dictGet ps k = some v ↔ (k, v) ∈ ps := by
  induction ps with
  | nil => simp [dictGet]
  | cons p ps ih =>
    simp only [List.map_cons, List.nodup_cons] at hnd
    constructor
    · intro h
      simp only [dictGet] at h
      cases hps : dictGet ps k with
      | some w =>
        rw [hps] at h
        cases h
        exact List.mem_cons_of_mem _ ((ih hnd.2).mp hps)
      | none =>
        rw [hps] at h
        by_cases hk : p.1 = k
        · simp only [hk, if_pos rfl] at h
          cases h
          rw [← hk]
          exact List.mem_cons_self _ _
        · simp [hk] at h
    · intro h
      rcases List.mem_cons.mp h with h | h
      · subst h
        have hnone : dictGet ps k = none :=
          dictGet_eq_none_of_not_mem _ _ (by simpa using hnd.1)
        simp [dictGet, hnone]
      · have := (ih hnd.2).mpr h
        simp [dictGet, this]

/-! ## VQA label encoding (01_image_captioning.ipynb, VQA notebook)

```python
labels = [item['ids'] for item in dataset['label']]
flattened_labels = list(itertools.chain(*labels))
unique_labels = list(set(flattened_labels))
label2id = {label: idx for idx, label in enumerate(unique_labels)}
id2label = {idx: label for label, idx in label2id.items()}
```
-/

/-- `unique_labels = list(set(flattened_labels))`: the distinct elements of
the flattened label list. CPython's set iteration order is unspecified;
`dedup` fixes one order (first occurrences), which is all any claim uses:
the elements are exactly the distinct labels, each appearing once. -/
def uniqueLabels (flattened_labels : List String) : List String :=
  flattened_labels.dedup

/-- `label2id = {label: idx for idx, label in enumerate(unique_labels)}`,
as a dict lookup. -/
def label2id (flattened_labels : List String) (x : String) : Option Nat :=
  dictGet ((uniqueLabels flattened_labels).enum.map fun p => (p.2, p.1)) x

/-- `id2label = {idx: label for label, idx in label2id.items()}`: since the
keys of `label2id` are distinct, its items are exactly the
(label, index) pairs of `enumerate(unique_labels)`, so `id2label` is the
dict of the (index, label) pairs in the same order. -/
def id2label (flattened_labels : List String) (i : Nat) : Option String :=
  dictGet (uniqueLabels flattened_labels).enum i

theorem uniqueLabels_nodup (fl : List String) : (uniqueLabels fl).Nodup :=
  List.nodup_dedup fl

theorem label2id_keys_nodup (fl : List String) :
    ((((uniqueLabels fl).enum.map fun p => (p.2, p.1)).map Prod.fst)).Nodup := by
  have : (((uniqueLabels fl).enum.map fun p => (p.2, p.1)).map Prod.fst)
      = (uniqueLabels fl).enum.map Prod.snd := by
    rw [List.map_map]
    rfl
  rw [this, List.enum_map_snd]
  exact uniqueLabels_nodup fl

theorem id2label_keys_nodup (fl : List String) :
    (((uniqueLabels fl).enum.map Prod.fst)).Nodup := by
  rw [List.enum_map_fst]
  exact List.nodup_range _

/-- Characterization of `label2id`: it sends a label to an index exactly
when the label sits at that index of `unique_labels`. -/
theorem label2id_eq_some_iff (fl : List String) (x : String) (i : Nat) :
    label2id fl x = some i ↔ (uniqueLabels fl)[i]? = some x := by
  rw [label2id, dictGet_eq_some_iff_mem _ (label2id_keys_nodup fl)]
  constructor
  · intro h
    rcases List.mem_map.mp h with ⟨p, hp, he⟩
    have h2 : p.2 = x := congrArg Prod.fst he
    have h1 : p.1 = i := congrArg Prod.snd he
    have : (i, x) ∈ (uniqueLabels fl).enum := by
      rw [← h1, ← h2]
      exact hp
    exact List.mem_enum_iff_getElem?.mp this
  · intro h
    exact List.mem_map.mpr ⟨(i, x), List.mem_enum_iff_getElem?.mpr h, rfl⟩

/-- Characterization of `id2label`: it sends an index to a label exactly
when the label sits at that index of `unique_labels`. -/
theorem id2label_eq_some_iff (fl : List String) (i : Nat) (x : String) :
    id2label fl i = some x ↔ (uniqueLabels fl)[i]? = some x := by
  rw [id2label, dictGet_eq_some_iff_mem _ (id2label_keys_nodup fl)]
  exact List.mem_enum_iff_getElem?

/-- **C1.** Building the VQA label maps from the dataset's answer-id strings
yields a `label2id` dictionary assigning a distinct id to every distinct
label (`label2id` is injective on `unique_labels`) and an `id2label`
dictionary that is its exact inverse: every label of `unique_labels` maps
to an id that maps back to it, and every (id, label) binding of `id2label`
maps back through `label2id` to the same id. -/
theorem label_maps_bijective (fl : List String) :
    (∀ x ∈ uniqueLabels fl, ∀ y ∈ uniqueLabels fl,
        label2id fl x = label2id fl y → x = y)
    ∧ (∀ x ∈ uniqueLabels fl,
        ∃ i, label2id fl x = some i ∧ id2label fl i = some x)
    ∧ (∀ i x, id2label fl i = some x → label2id fl x = some i) := by
  have hmem : ∀ x ∈ uniqueLabels fl, ∃ i, label2id fl x = some i := by
    intro x hx
    rcases List.mem_iff_getElem?.mp hx with ⟨i, hi⟩
    exact ⟨i, (label2id_eq_some_iff fl x i).mpr hi⟩
  refine ⟨?_, ?_, ?_⟩
  · intro x hx y hy hxy
    rcases hmem x hx with ⟨i, hi⟩
    have hyi : label2id fl y = some i := by rw [← hxy, hi]
    have h1 := (label2id_eq_some_iff fl x i).mp hi
    have h2 := (label2id_eq_some_iff fl y i).mp hyi
    rw [h1] at h2
    exact Option.some.inj h2
  · intro x hx
    rcases hmem x hx with ⟨i, hi⟩
    exact ⟨i, hi, (id2label_eq_some_iff fl i x).mpr
      ((label2id_eq_some_iff fl x i).mp hi)⟩
  · intro i x h
    exact (label2id_eq_some_iff fl x i).mpr ((id2label_eq_some_iff fl i x).mp h)

/-- Witness for C1 on a concrete flattened label list with a repeat. -/
theorem label_maps_bijective_witness :
    ("down" ∈ uniqueLabels ["down", "up", "down", "left"]
      ∧ ∃ i, label2id ["down", "up", "down", "left"] "down" = some i
        ∧ id2label ["down", "up", "down", "left"] i = some "down") :=
  ⟨by decide,
    (label_maps_bijective ["down", "up", "down", "left"]).2.1 "down" (by decide)⟩

/-! ## replace_ids (VQA notebook)

```python
def replace_ids(inputs):
    inputs["label"]["ids"] = [label2id[x] for x in inputs["label"]["ids"]]
    return inputs
```
-/

/-- A raw VQA example after `remove_columns`: question, image path, and the
annotated label: answer-id strings with their weights. -/
structure VQAExampleStr where
  question : String
  image_id : String
  ids : List String
  weights : List ℚ
deriving DecidableEq

/-- A VQA example after `replace_ids`: the answer-id strings have become
integer ids. -/
structure VQAExampleNat where
  question : String
  image_id : String
  ids : List Nat
  weights : List ℚ
deriving DecidableEq

/-- The comprehension `[label2id[x] for x in ids]`: a missing key raises
`KeyError` and aborts the whole comprehension, modelled as `none`. -/
def lookupAll (l2i : String → Option Nat) : List String → Option (List Nat)
  | [] => some []
  | x :: xs =>
    match l2i x with
    | none => none
    | some v => (lookupAll l2i xs).map fun l => v :: l

/-- `replace_ids`: replace each answer-id string by its `label2id` id,
leaving the rest of the example unchanged; a missing key propagates. -/
def replace_ids (fl : List String) (e : VQAExampleStr) : Option VQAExampleNat :=
  (lookupAll (label2id fl) e.ids).map fun l =>
    { question := e.question, image_id := e.image_id, ids := l, weights := e.weights }

theorem lookupAll_eq_none_of_missing (l2i : String → Option Nat)
    (xs : List String) (h : ∃ x ∈ xs, l2i x = none) :
    lookupAll l2i xs = none := by
  induction xs with
  | nil => simp at h
  | cons x xs ih =>
    rcases h with ⟨y, hy, hn⟩
    rcases List.mem_cons.mp hy with h | h
    · subst h
      simp [lookupAll, hn]
    · simp only [lookupAll]
      cases hx : l2i x with
      | none => rfl
      | some v => rw [ih ⟨y, h, hn⟩]; rfl

theorem lookupAll_isSome_of_total (l2i : String → Option Nat)
    (xs : List String) (h : ∀ x ∈ xs, (l2i x).isSome) :
    ∃ l, lookupAll l2i xs = some l := by
  induction xs with
  | nil => exact ⟨[], rfl⟩
  | cons x xs ih =>
    have hx := h x (List.mem_cons_self _ _)
    rcases Option.isSome_iff_exists.mp hx with ⟨v, hv⟩
    rcases ih (fun y hy => h y (List.mem_cons_of_mem _ hy)) with ⟨l, hl⟩
    exact ⟨v :: l, by simp [lookupAll, hv, hl]⟩

theorem lookupAll_length (l2i : String → Option Nat) (xs : List String)
    (l : List Nat) (h : lookupAll l2i xs = some l) : l.length = xs.length := by
  induction xs generalizing l with
  | nil => cases h; rfl
  | cons x xs ih =>
    simp only [lookupAll] at h
    cases hx : l2i x with
    | none => rw [hx] at h; cases h
    | some v =>
      rw [hx] at h
      cases ht : lookupAll l2i xs with
      | none => rw [ht] at h; cases h
      | some t =>
        rw [ht] at h
        cases h
        simp [ih t ht]

theorem lookupAll_getElem (l2i : String → Option Nat) (xs : List String)
    (l : List Nat) (h : lookupAll l2i xs = some l) :
    ∀ i (hi : i < xs.length) (hl : i < l.length), l2i xs[i] = some l[i] := by
  induction xs generalizing l with
  | nil => intro i hi; simp at hi
  | cons x xs ih =>
    simp only [lookupAll] at h
    cases hx : l2i x with
    | none => rw [hx] at h; cases h
    | some v =>
      rw [hx] at h
      cases ht : lookupAll l2i xs with
      | none => rw [ht] at h; cases h
      | some t =>
        rw [ht] at h
        cases h
        intro i hi hl
        cases i with
        | zero => simpa using hx
        | succ j =>
          have hj : j < xs.length := by simpa using hi
          have hjl : j < t.length := by simpa using hl
          simpa using ih t ht j hj hjl

/-- **C5.** `replace_ids` handles no errors: on an example containing an
answer-id string absent from `label2id` the lookup fails and no result is
returned; on an example all of whose id strings are keys of `label2id` it
returns the example with each string replaced by its id, preserving the
list's length and order. -/
theorem replace_ids_spec (fl : List String) (e : VQAExampleStr) :
    ((∃ x ∈ e.ids, label2id fl x = none) → replace_ids fl e = none)
    ∧ ((∀ x ∈ e.ids, (label2id fl x).isSome) →
        ∃ res, replace_ids fl e = some res
          ∧ res.question = e.question ∧ res.image_id = e.image_id
          ∧ res.weights = e.weights
          ∧ res.ids.length = e.ids.length
          ∧ ∀ i (hi : i < e.ids.length) (hr : i < res.ids.length),
              label2id fl e.ids[i] = some res.ids[i]) := by
  constructor
  · intro h
    rw [replace_ids, lookupAll_eq_none_of_missing _ _ h]
    rfl
  · intro h
    rcases lookupAll_isSome_of_total _ _ h with ⟨l, hl⟩
    refine ⟨_, by rw [replace_ids, hl]; rfl, rfl, rfl, rfl,
      lookupAll_length _ _ _ hl, ?_⟩
    intro i hi hr
    exact lookupAll_getElem _ _ _ hl i hi hr

/-- Witness for C5: a concrete missing key gives no result, and a concrete
all-keys-present example comes back with its ids replaced. -/
theorem replace_ids_spec_witness :
    replace_ids ["down", "up"] ⟨"what?", "img0.png", ["down", "cat"], [1]⟩ = none
    ∧ ∃ res, replace_ids ["down", "up"] ⟨"what?", "img0.png", ["up", "down"], [1]⟩
          = some res
        ∧ res.question = "what?" ∧ res.image_id = "img0.png"
        ∧ res.weights = [1]
        ∧ res.ids.length = (["up", "down"] : List String).length
        ∧ ∀ i (hi : i < (["up", "down"] : List String).length)
            (hr : i < res.ids.length),
            label2id ["down", "up"] (["up", "down"] : List String)[i]
              = some res.ids[i] :=
  ⟨(replace_ids_spec ["down", "up"] ⟨"what?", "img0.png", ["down", "cat"], [1]⟩).1
      (by decide),
    (replace_ids_spec ["down", "up"] ⟨"what?", "img0.png", ["up", "down"], [1]⟩).2
      (by decide)⟩

/-! ## preprocess_data soft targets (VQA notebook)

```python
for labels, scores in zip(examples['label.ids'], examples['label.weights']):
    target = torch.zeros(len(id2label))
    for label, score in zip(labels, scores):
        target[label] = score
    targets.append(target)
```
-/

/-- The inner loop of `preprocess_data`: start from `torch.zeros(n)` with
`n = len(id2label)` and write each annotated answer's score at its label
id. -/
def mkTarget (n : Nat) (ids : List Nat) (weights : List ℚ) : List ℚ :=
  (ids.zip weights).foldl (fun t p => t.set p.1 p.2) (List.replicate n 0)

/-- The `targets` list built by `preprocess_data` over a batch: one soft
target vector per example, of length `len(id2label)`. -/
def preprocess_data_targets (fl : List String) (batch : List VQAExampleNat) :
    List (List ℚ) :=
  batch.map fun e => mkTarget (uniqueLabels fl).length e.ids e.weights

theorem foldl_set_length {β : Type} (l : List (Nat × β)) (t : List β) :
    (l.foldl (fun t p => t.set p.1 p.2) t).length = t.length := by
  induction l generalizing t with
  | nil => rfl
  | cons p l ih =>
    rw [List.foldl_cons, ih, List.length_set]

theorem foldl_set_getElem?_of_not_mem {β : Type} (l : List (Nat × β))
    (t : List β) (j : Nat) (h : j ∉ l.map Prod.fst) :
    (l.foldl (fun t p => t.set p.1 p.2) t)[j]? = t[j]? := by
  induction l generalizing t with
  | nil => rfl
  | cons p l ih =>
    simp only [List.map_cons, List.mem_cons, not_or] at h
    rw [List.foldl_cons, ih (t.set p.1 p.2) h.2]
    exact List.getElem?_set_ne fun hpj => h.1 hpj.symm

theorem foldl_set_getElem?_of_mem {β : Type} (l : List (Nat × β))
    (hnd : (l.map Prod.fst).Nodup) (p : Nat × β) (hp : p ∈ l) (t : List β)
    (hj : p.1 < t.length) :
    (l.foldl (fun t p => t.set p.1 p.2) t)[p.1]? = some p.2 := by
  induction l generalizing t with
  | nil => simp at hp
  | cons q l ih =>
    simp only [List.map_cons, List.nodup_cons] at hnd
    rw [List.foldl_cons]
    rcases List.mem_cons.mp hp with h | h
    · subst h
      rw [foldl_set_getElem?_of_not_mem l (t.set p.1 p.2) p.1 hnd.1]
      exact List.getElem?_set_self hj
    · exact ih hnd.2 h (t.set q.1 q.2) (by rwa [List.length_set])

theorem map_fst_zip_eq_take {α β : Type} (l : List α) (w : List β) :
    (l.zip w).map Prod.fst = l.take w.length := by
  induction l generalizing w with
  | nil => simp
  | cons x l ih =>
    cases w with
    | nil => simp
    | cons b w => simp [List.zip_cons_cons, ih]

theorem mkTarget_length (n : Nat) (ids : List Nat) (weights : List ℚ) :
    (mkTarget n ids weights).length = n := by
  rw [mkTarget, foldl_set_length, List.length_replicate]

theorem mkTarget_getElem_of_mem (n : Nat) (ids : List Nat)
    (weights : List ℚ) (hnd : ids.Nodup) (p : Nat × ℚ)
    (hp : p ∈ ids.zip weights) (hlt : p.1 < (mkTarget n ids weights).length) :
    (mkTarget n ids weights)[p.1] = p.2 := by
  have hkeys : ((ids.zip weights).map Prod.fst).Nodup := by
    rw [map_fst_zip_eq_take]
    exact hnd.sublist (List.take_sublist _ _)
  have hn : p.1 < (List.replicate n (0 : ℚ)).length := by
    rw [List.length_replicate]
    rwa [mkTarget_length] at hlt
  have h2 : (mkTarget n ids weights)[p.1]? = some p.2 :=
    foldl_set_getElem?_of_mem _ hkeys p hp _ hn
  rw [List.getElem?_eq_getElem hlt] at h2
  exact Option.some.inj h2

theorem mkTarget_getElem_of_not_mem (n : Nat) (ids : List Nat)
    (weights : List ℚ) (j : Nat) (hj : j ∉ ids)
    (hlt : j < (mkTarget n ids weights).length) :
    (mkTarget n ids weights)[j] = 0 := by
  have hjn : j < n := by rwa [mkTarget_length] at hlt
  have hnot : j ∉ (ids.zip weights).map Prod.fst := by
    rw [map_fst_zip_eq_take]
    exact fun hmem => hj (List.mem_of_mem_take hmem)
  have h2 : (mkTarget n ids weights)[j]? = some 0 := by
    rw [mkTarget, foldl_set_getElem?_of_not_mem _ _ _ hnot]
    rw [List.getElem?_eq_getElem (by simpa using hjn)]
    simp
  rw [List.getElem?_eq_getElem hlt] at h2
  exact Option.some.inj h2

/-- **C3.** For a batch of VQA examples whose annotated label ids are all
below `len(id2label)` and pairwise distinct within each example,
`preprocess_data` builds for each example a soft target vector of length
`len(id2label)` holding the annotated score at each annotated id and zero
everywhere else. -/
theorem preprocess_data_soft_targets (fl : List String)
    (batch : List VQAExampleNat)
    (hvalid : ∀ e ∈ batch, ∀ i ∈ e.ids, i < (uniqueLabels fl).length)
    (hnd : ∀ e ∈ batch, e.ids.Nodup) :
    ∀ k (hk : k < batch.length)
      (hk2 : k < (preprocess_data_targets fl batch).length),
      (preprocess_data_targets fl batch)[k].length = (uniqueLabels fl).length
      ∧ (∀ p ∈ batch[k].ids.zip batch[k].weights,
          (preprocess_data_targets fl batch)[k][p.1]? = some p.2)
      ∧ ∀ j (hj : j < (preprocess_data_targets fl batch)[k].length),
          j ∉ batch[k].ids → (preprocess_data_targets fl batch)[k][j] = 0 := by
  intro k hk hk2
  have he : (preprocess_data_targets fl batch)[k]
      = mkTarget (uniqueLabels fl).length batch[k].ids batch[k].weights := by
    simp [preprocess_data_targets]
  refine ⟨?_, ?_, ?_⟩
  · rw [he, mkTarget_length]
  · intro p hp
    have hin : p.1 ∈ batch[k].ids := (List.of_mem_zip hp).1
    have hplt : p.1 < (uniqueLabels fl).length :=
      hvalid _ (List.getElem_mem _) _ hin
    have hlt : p.1 < (mkTarget (uniqueLabels fl).length batch[k].ids
        batch[k].weights).length := by rwa [mkTarget_length]
    have := mkTarget_getElem_of_mem (uniqueLabels fl).length batch[k].ids
      batch[k].weights (hnd _ (List.getElem_mem _)) p hp hlt
    rw [he, List.getElem?_eq_getElem hlt, this]
  · intro j hj hmem
    have := mkTarget_getElem_of_not_mem (uniqueLabels fl).length batch[k].ids
      batch[k].weights j hmem (by rwa [he] at hj)
    simp only [he]
    convert this using 2

/-- Witness for C3 on a concrete two-example batch. -/
theorem preprocess_data_soft_targets_witness :
    (preprocess_data_targets ["down", "up", "left"]
        [⟨"q", "i", [1, 0], [(1 : ℚ), 1/3]⟩])[0].length
        = (uniqueLabels ["down", "up", "left"]).length
      ∧ (∀ p ∈ ([(1, (1 : ℚ)), (0, 1/3)] : List (Nat × ℚ)),
          (preprocess_data_targets ["down", "up", "left"]
              [⟨"q", "i", [1, 0], [(1 : ℚ), 1/3]⟩])[0][p.1]? = some p.2)
      ∧ ∀ j (hj : j < (preprocess_data_targets ["down", "up", "left"]
            [⟨"q", "i", [1, 0], [(1 : ℚ), 1/3]⟩])[0].length),
          j ∉ ([1, 0] : List Nat) →
            (preprocess_data_targets ["down", "up", "left"]
              [⟨"q", "i", [1, 0], [(1 : ℚ), 1/3]⟩])[0][j] = 0 :=
  preprocess_data_soft_targets ["down", "up", "left"]
    [⟨"q", "i", [1, 0], [(1 : ℚ), 1/3]⟩]
    (by decide) (by decide) 0 (by decide) (by decide)

/-! ## cleanup_text (04_text_to_speech.ipynb)

```python
replacements = [("à", "a"), ("ç", "c"), ("è", "e"), ("ë", "e"),
                ("í", "i"), ("ï", "i"), ("ö", "o"), ("ü", "u")]

def cleanup_text(inputs):
    for src, dst in replacements:
        inputs["normalized_text"] = inputs["normalized_text"].replace(src, dst)
    return inputs
```
-/

/-- The global `replacements` table of the TTS notebook. -/
def replacements : List (Char × Char) :=
  [('à', 'a'), ('ç', 'c'), ('è', 'e'), ('ë', 'e'),
   ('í', 'i'), ('ï', 'i'), ('ö', 'o'), ('ü', 'u')]

/-- Python `s.replace(src, dst)` for a single-character pattern: replace
every occurrence of the character `src` by `dst`. -/
def replaceChar (s : List Char) (src dst : Char) : List Char :=
  s.map fun c => if c = src then dst else c

/-- The loop body of `cleanup_text` acting on the `normalized_text`
string, with the global `replacements` table as an explicit parameter. -/
def cleanupWith (repl : List (Char × Char)) (s : List Char) : List Char :=
  repl.foldl (fun t p => replaceChar t p.1 p.2) s

/-- A raw VoxPopuli example: the columns of the dataset the TTS notebook
reads. Audio samples are abstracted as rationals. -/
structure TTSExample where
  audio_id : String
  language : String
  audio : List ℚ
  raw_text : List Char
  normalized_text : List Char
  gender : String
  speaker_id : String
  accent : String
deriving DecidableEq

/-- `cleanup_text`: rewrite the `normalized_text` field through the
`replacements` table and return the example. -/
def cleanup_text (e : TTSExample) : TTSExample :=
  { e with normalized_text := cleanupWith replacements e.normalized_text }

/-- Folding the whole replacement table over a string is the same as
mapping the per-character fold over its characters. -/
theorem cleanupWith_eq_map (repl : List (Char × Char)) (s : List Char) :
    cleanupWith repl s
      = s.map fun c => repl.foldl (fun a p => if a = p.1 then p.2 else a) c := by
  induction repl generalizing s with
  | nil => simp [cleanupWith]
  | cons p repl ih =>
    simp only [cleanupWith, List.foldl_cons] at ih ⊢
    rw [ih (replaceChar s p.1 p.2), replaceChar, List.map_map]
    rfl

/-- A character matching no entry of the table is left unchanged by the
per-character fold. -/
theorem foldl_repl_eq_self (repl : List (Char × Char)) (c : Char)
    (h : ∀ p ∈ repl, c ≠ p.1) :
    repl.foldl (fun a p => if a = p.1 then p.2 else a) c = c := by
  induction repl with
  | nil => rfl
  | cons p repl ih =>
    rw [List.foldl_cons]
    have hc : ¬c = p.1 := h p (List.mem_cons_self _ _)
    simp only [if_neg hc]
    exact ih fun q hq => h q (List.mem_cons_of_mem _ hq)

/-- No character of the output of the per-character fold over
`replacements` is a source character of the table. -/
theorem foldl_replacements_not_src (c : Char) :
    replacements.foldl (fun a p => if a = p.1 then p.2 else a) c
      ∉ replacements.map Prod.fst := by
  by_cases hc : c ∈ replacements.map Prod.fst
  · simp only [replacements, List.map_cons, List.map_nil, List.mem_cons,
      List.not_mem_nil, or_false] at hc
    rcases hc with rfl | rfl | rfl | rfl | rfl | rfl | rfl | rfl <;> decide
  · rw [foldl_repl_eq_self]
    · exact hc
    · intro p hp he
      exact hc (he ▸ List.mem_map_of_mem Prod.fst hp)

/-- A source character of `replacements` is sent to its replacement by the
per-character fold. -/
theorem foldl_replacements_src (p : Char × Char) (hp : p ∈ replacements) :
    replacements.foldl (fun a q => if a = q.1 then q.2 else a) p.1 = p.2 := by
  simp only [replacements, List.mem_cons, List.not_mem_nil, or_false] at hp
  rcases hp with rfl | rfl | rfl | rfl | rfl | rfl | rfl | rfl <;> decide

/-- **C2.** `cleanup_text` replaces every occurrence of each of the eight
special characters of `replacements` in `normalized_text` by its ASCII
replacement: the output has the same length, contains none of the eight
source characters, carries every non-source character over unchanged at
its position, and holds the replacement at every source position. -/
theorem cleanup_text_replaces (e : TTSExample) :
    (cleanup_text e).normalized_text.length = e.normalized_text.length
    ∧ (∀ c ∈ (cleanup_text e).normalized_text, c ∉ replacements.map Prod.fst)
    ∧ (∀ (i : Nat) (c : Char), e.normalized_text[i]? = some c →
        c ∉ replacements.map Prod.fst →
          (cleanup_text e).normalized_text[i]? = some c)
    ∧ (∀ (i : Nat) (p : Char × Char), p ∈ replacements →
        e.normalized_text[i]? = some p.1 →
          (cleanup_text e).normalized_text[i]? = some p.2) := by
  have hout : (cleanup_text e).normalized_text
      = e.normalized_text.map
          fun c => replacements.foldl (fun a p => if a = p.1 then p.2 else a) c :=
    cleanupWith_eq_map replacements e.normalized_text
  refine ⟨?_, ?_, ?_, ?_⟩
  · rw [hout, List.length_map]
  · intro c hc
    rw [hout] at hc
    rcases List.mem_map.mp hc with ⟨d, _, hd⟩
    rw [← hd]
    exact foldl_replacements_not_src d
  · intro i c hi hc
    rw [hout, List.getElem?_map, hi, Option.map_some']
    rw [foldl_repl_eq_self]
    intro p hp he
    exact hc (he ▸ List.mem_map_of_mem Prod.fst hp)
  · intro i p hp hi
    rw [hout, List.getElem?_map, hi, Option.map_some',
      foldl_replacements_src p hp]

/-- Witness for C2 on the concrete string "çà va" (sic). -/
theorem cleanup_text_replaces_witness :
    (cleanup_text ⟨"a0", "nl", [], [], ['ç', 'à', ' ', 'v', 'a'], "f", "s1",
        "none"⟩).normalized_text[0]? = some 'c'
    ∧ (cleanup_text ⟨"a0", "nl", [], [], ['ç', 'à', ' ', 'v', 'a'], "f", "s1",
        "none"⟩).normalized_text[3]? = some 'v' :=
  ⟨(cleanup_text_replaces ⟨"a0", "nl", [], [], ['ç', 'à', ' ', 'v', 'a'], "f",
      "s1", "none"⟩).2.2.2 0 ('ç', 'c') (by decide) (by decide),
    (cleanup_text_replaces ⟨"a0", "nl", [], [], ['ç', 'à', ' ', 'v', 'a'], "f",
      "s1", "none"⟩).2.2.1 3 'v' (by decide) (by decide)⟩

/-- **C6.** `cleanup_text` is a frame: every field of the example other
than `normalized_text` comes back unchanged. -/
theorem cleanup_text_frame (e : TTSExample) :
    (cleanup_text e).audio_id = e.audio_id
    ∧ (cleanup_text e).language = e.language
    ∧ (cleanup_text e).audio = e.audio
    ∧ (cleanup_text e).raw_text = e.raw_text
    ∧ (cleanup_text e).gender = e.gender
    ∧ (cleanup_text e).speaker_id = e.speaker_id
    ∧ (cleanup_text e).accent = e.accent :=
  ⟨rfl, rfl, rfl, rfl, rfl, rfl, rfl⟩

/-! ## select_speaker and the length filter (04_text_to_speech.ipynb)

```python
def select_speaker(speaker_id):
    return 100 <= speaker_counts[speaker_id] <= 400

def is_not_too_long(input_ids):
    input_length = len(input_ids)
    return input_length < 200
```
-/

/-- `select_speaker`: keep a speaker with between 100 and 400 examples.
The global `speaker_counts` is a `defaultdict(int)`, so reading it is a
total function with default 0; it is passed as a parameter. -/
def select_speaker (speaker_counts : String → Nat) (speaker_id : String) :
    Bool :=
  decide (100 ≤ speaker_counts speaker_id)
    && decide (speaker_counts speaker_id ≤ 400)

/-- `is_not_too_long`: keep an example whose tokenized input has fewer
than 200 tokens. -/
def is_not_too_long (input_ids : List Nat) : Bool :=
  decide (input_ids.length < 200)

/-- A processed TTS example as produced by `prepare_dataset`: token ids,
log-mel spectrogram frames (values abstracted as integers) and a speaker
embedding. -/
structure TTSFeature where
  input_ids : List Nat
  labels : List (List ℤ)
  speaker_embeddings : List ℚ
deriving DecidableEq

/-- `dataset.filter(is_not_too_long, input_columns=["input_ids"])`. -/
def filter_not_too_long (ds : List TTSFeature) : List TTSFeature :=
  ds.filter fun e => is_not_too_long e.input_ids

/-- **C4.** `is_not_too_long` accepts exactly the examples whose
`input_ids` has length strictly below 200, and the dataset filter retains
exactly the examples satisfying that bound. -/
theorem is_not_too_long_spec :
    (∀ ids : List Nat, is_not_too_long ids = true ↔ ids.length < 200)
    ∧ ∀ (ds : List TTSFeature) (e : TTSFeature),
        e ∈ filter_not_too_long ds ↔ e ∈ ds ∧ e.input_ids.length < 200 := by
  constructor
  · intro ids
    simp [is_not_too_long]
  · intro ds e
    simp [filter_not_too_long, List.mem_filter, is_not_too_long]

/-- **C7.** The per-example data-mapping functions are deterministic: with
equal inputs and equal values of the globals each reads (`replacements`,
`speaker_counts`, `label2id` through its backing label list), the outputs
are equal. -/
theorem data_mappings_deterministic
    (repl repl' : List (Char × Char)) (s s' : List Char)
    (counts counts' : String → Nat) (sid sid' : String)
    (fl fl' : List String) (e e' : VQAExampleStr)
    (h1 : repl = repl') (h2 : s = s')
    (h3 : counts = counts') (h4 : sid = sid')
    (h5 : label2id fl = label2id fl') (h6 : e = e') :
    cleanupWith repl s = cleanupWith repl' s'
    ∧ select_speaker counts sid = select_speaker counts' sid'
    ∧ replace_ids fl e = replace_ids fl' e' := by
  subst h1 h2 h3 h4 h6
  refine ⟨rfl, rfl, ?_⟩
  rw [replace_ids, replace_ids, h5]

/-- Witness for C7 at concrete inputs and globals. -/
theorem data_mappings_deterministic_witness :
    cleanupWith replacements ['à', 'b'] = cleanupWith replacements ['à', 'b']
    ∧ select_speaker (fun _ => 150) "s1" = select_speaker (fun _ => 150) "s1"
    ∧ replace_ids ["up"] ⟨"q", "i", ["up"], [1]⟩
        = replace_ids ["up"] ⟨"q", "i", ["up"], [1]⟩ :=
  data_mappings_deterministic replacements replacements ['à', 'b'] ['à', 'b']
    (fun _ => 150) (fun _ => 150) "s1" "s1" ["up"] ["up"]
    ⟨"q", "i", ["up"], [1]⟩ ⟨"q", "i", ["up"], [1]⟩ rfl rfl rfl rfl rfl rfl

/-! ## TTSDataCollatorWithPadding (04_text_to_speech.ipynb)

```python
def __call__(self, features):
    input_ids = [{"input_ids": feature["input_ids"]} for feature in features]
    label_features = [{"input_values": feature["labels"]} for feature in features]
    speaker_features = [feature["speaker_embeddings"] for feature in features]
    batch = processor.pad(input_ids=input_ids, labels=label_features, return_tensors="pt")
    batch["labels"] = batch["labels"].masked_fill(
        batch.decoder_attention_mask.unsqueeze(-1).ne(1), -100)
    del batch["decoder_attention_mask"]
    if model.config.reduction_factor > 1:
        target_lengths = torch.tensor([len(feature["input_values"]) for feature in label_features])
        target_lengths = target_lengths.new(
            [length - length % model.config.reduction_factor for length in target_lengths])
        max_length = max(target_lengths)
        batch["labels"] = batch["labels"][:, :max_length]
    batch["speaker_embeddings"] = torch.tensor(speaker_features)
    return batch
```

The collator reads the notebook globals `processor` and `model`; the model
fields it uses appear as the parameters `rf` (`model.config.reduction_factor`)
and `m` (the mel-bin width of one spectrogram frame).
-/

/-- `max` of a list of naturals (Python `max` over a list, with 0 for the
empty list, on which Python's `max` would raise). -/
def listMax (l : List Nat) : Nat :=
  l.foldr Nat.max 0

/-- Modelled from the documented behavior of `SpeechT5Processor.pad` on the
target side: each label sequence is padded at the end with all-zero frames
to the longest length in the batch. -/
def padLabels (m : Nat) (ls : List (List (List ℤ))) : List (List (List ℤ)) :=
  ls.map fun l =>
    l ++ List.replicate (listMax (ls.map List.length) - l.length)
      (List.replicate m 0)

/-- Modelled from the documented behavior of `SpeechT5Processor.pad`: the
`decoder_attention_mask` is 1 on the real frames of each label sequence
and 0 on the padding. -/
def decoder_attention_mask (ls : List (List (List ℤ))) : List (List Nat) :=
  ls.map fun l =>
    List.replicate l.length 1
      ++ List.replicate (listMax (ls.map List.length) - l.length) 0

/-- `labels.masked_fill(mask.unsqueeze(-1).ne(1), -100)`: wherever the mask
is not 1, every entry of that frame becomes -100. -/
def maskedFillLabels (labels : List (List (List ℤ))) (mask : List (List Nat)) :
    List (List (List ℤ)) :=
  (labels.zip mask).map fun q =>
    (q.1.zip q.2).map fun p => if p.2 ≠ 1 then p.1.map fun _ => (-100 : ℤ) else p.1

/-- The batch returned by the collator. `decoder_attention_mask` is deleted
from the batch before it is returned, so it is not a field. -/
structure TTSBatch where
  input_ids : List (List Nat)
  labels : List (List (List ℤ))
  speaker_embeddings : List (List ℚ)

/-- Padding of the token-id side of `processor.pad`; the pad token id is
abstracted as 0 (no claim depends on it). -/
def padInputIds (xs : List (List Nat)) : List (List Nat) :=
  xs.map fun x => x ++ List.replicate (listMax (xs.map List.length) - x.length) 0

/-- `TTSDataCollatorWithPadding.__call__`. -/
def ttsDataCollatorCall (rf m : Nat) (features : List TTSFeature) : TTSBatch :=
  let label_features := features.map TTSFeature.labels
  let filled := maskedFillLabels (padLabels m label_features)
    (decoder_attention_mask label_features)
  { input_ids := padInputIds (features.map TTSFeature.input_ids)
    labels :=
      if 1 < rf then
        let max_length :=
          listMax (label_features.map fun l => l.length - l.length % rf)
        filled.map (List.take max_length)
      else filled
    speaker_embeddings := features.map TTSFeature.speaker_embeddings }

theorem le_listMax_of_mem {a : Nat} {l : List Nat} (h : a ∈ l) :
    a ≤ listMax l := by
  induction l with
  | nil => simp at h
  | cons b l ih =>
    rcases List.mem_cons.mp h with rfl | h
    · exact Nat.le_max_left _ _
    · exact le_trans (ih h) (Nat.le_max_right _ _)

theorem listMax_le {b : Nat} {l : List Nat} (h : ∀ a ∈ l, a ≤ b) :
    listMax l ≤ b := by
  induction l with
  | nil => exact Nat.zero_le b
  | cons a l ih =>
    exact Nat.max_le.mpr ⟨h a (List.mem_cons_self _ _),
      ih fun x hx => h x (List.mem_cons_of_mem _ hx)⟩

theorem dvd_listMax {d : Nat} {l : List Nat} (h : ∀ a ∈ l, d ∣ a) :
    d ∣ listMax l := by
  induction l with
  | nil => exact Dvd.intro 0 rfl
  | cons a l ih =>
    have ha := h a (List.mem_cons_self _ _)
    have hl := ih fun x hx => h x (List.mem_cons_of_mem _ hx)
    have hmax : listMax (a :: l) = Nat.max a (listMax l) := rfl
    by_cases hle : a ≤ listMax l
    · have hm : Nat.max a (listMax l) = listMax l := Nat.max_eq_right hle
      rw [hmax, hm]
      exact hl
    · have hm : Nat.max a (listMax l) = a :=
        Nat.max_eq_left (Nat.le_of_not_le hle)
      rw [hmax, hm]
      exact ha

/-- Real frames survive the masked fill unchanged. -/
theorem fillRow_keep (l : List (List ℤ)) :
    ((l.zip (List.replicate l.length 1)).map
      fun p => if p.2 ≠ 1 then p.1.map fun _ => (-100 : ℤ) else p.1) = l := by
  induction l with
  | nil => rfl
  | cons x l ih =>
    simp only [List.length_cons, List.replicate_succ, List.zip_cons_cons,
      List.map_cons, ih]
    simp

/-- One masked-filled row in closed form: the original frames followed by
all--100 padding frames. -/
theorem fillRow_closed (m L : Nat) (l : List (List ℤ)) :
    (((l ++ List.replicate (L - l.length) (List.replicate m (0 : ℤ))).zip
        (List.replicate l.length (1 : Nat) ++ List.replicate (L - l.length) 0)).map
      fun p => if p.2 ≠ 1 then p.1.map fun _ => (-100 : ℤ) else p.1)
    = l ++ List.replicate (L - l.length) (List.replicate m (-100)) := by
  rw [List.zip_append (by simp), List.map_append, fillRow_keep]
  congr 1
  rw [List.zip_replicate', List.map_replicate]
  simp

/-- The label rows of the collated batch before the reduction-factor
truncation, in closed form. -/
theorem maskedFill_pad_eq (m : Nat) (ls : List (List (List ℤ))) :
    maskedFillLabels (padLabels m ls) (decoder_attention_mask ls)
      = ls.map fun l =>
          l ++ List.replicate (listMax (ls.map List.length) - l.length)
            (List.replicate m (-100)) := by
  rw [maskedFillLabels, padLabels, decoder_attention_mask, List.zip_map']
  rw [List.map_map]
  refine List.map_congr_left fun l _ => ?_
  exact fillRow_closed m (listMax (ls.map List.length)) l

/-- **C9.** The collated batch satisfies: every frame of the labels tensor
at a position whose decoder attention mask is not 1 consists entirely of
-100, and when `model.config.reduction_factor > 1` every label row's time
dimension equals the maximum over the features of
(length - length mod reduction_factor), a multiple of the reduction
factor. -/
theorem tts_collator_batch_invariant (rf m : Nat) (features : List TTSFeature) :
    (∀ (i t : Nat) (row : List (List ℤ)) (mrow : List Nat) (frame : List ℤ),
        (ttsDataCollatorCall rf m features).labels[i]? = some row →
        (decoder_attention_mask (features.map TTSFeature.labels))[i]? = some mrow →
        row[t]? = some frame →
        mrow.getD t 0 ≠ 1 →
        ∀ v ∈ frame, v = -100)
    ∧ (1 < rf →
        (∀ row ∈ (ttsDataCollatorCall rf m features).labels,
            row.length = listMax ((features.map TTSFeature.labels).map
              fun l => l.length - l.length % rf))
        ∧ rf ∣ listMax ((features.map TTSFeature.labels).map
            fun l => l.length - l.length % rf)) := by
  set ls := features.map TTSFeature.labels with hls
  set L := listMax (ls.map List.length) with hL
  set maxLen := listMax (ls.map fun l => l.length - l.length % rf) with hml
  have hfill : maskedFillLabels (padLabels m ls) (decoder_attention_mask ls)
      = ls.map fun l =>
          l ++ List.replicate (L - l.length) (List.replicate m (-100)) :=
    maskedFill_pad_eq m ls
  have hlabels : (ttsDataCollatorCall rf m features).labels
      = if 1 < rf then
          (ls.map fun l =>
            l ++ List.replicate (L - l.length)
              (List.replicate m (-100))).map (List.take maxLen)
        else
          ls.map fun l =>
            l ++ List.replicate (L - l.length) (List.replicate m (-100)) := by
    rw [ttsDataCollatorCall]
    simp only [← hls, hfill, ← hL, ← hml]
  constructor
  · intro i t row mrow frame hrow hmask hframe hm
    -- identify the underlying label sequence of row i
    have hrow2 : ∃ l, ls[i]? = some l
        ∧ ((1 < rf ∧ row = List.take maxLen
              (l ++ List.replicate (L - l.length) (List.replicate m (-100))))
          ∨ (¬1 < rf ∧ row = l ++ List.replicate (L - l.length)
              (List.replicate m (-100)))) := by
      rw [hlabels] at hrow
      by_cases hrf : 1 < rf
      · rw [if_pos hrf, List.map_map, List.getElem?_map] at hrow
        rcases Option.map_eq_some'.mp hrow with ⟨l, hl, he⟩
        exact ⟨l, hl, Or.inl ⟨hrf, he.symm⟩⟩
      · rw [if_neg hrf, List.getElem?_map] at hrow
        rcases Option.map_eq_some'.mp hrow with ⟨l, hl, he⟩
        exact ⟨l, hl, Or.inr ⟨hrf, he.symm⟩⟩
    rcases hrow2 with ⟨l, hl, hcase⟩
    have hmrow : mrow = List.replicate l.length 1
        ++ List.replicate (L - l.length) 0 := by
      rw [decoder_attention_mask, List.getElem?_map, hl,
        Option.map_some'] at hmask
      rw [← hL] at hmask
      exact (Option.some.inj hmask).symm
    -- the padded row holds frame at index t
    have hpadded : (l ++ List.replicate (L - l.length)
        (List.replicate m (-100)))[t]? = some frame := by
      rcases hcase with ⟨hrf, he⟩ | ⟨hrf, he⟩
      · rw [he] at hframe
        rcases List.getElem?_eq_some_iff.mp hframe with ⟨hlt, hval⟩
        have htlt : t < maxLen := lt_of_lt_of_le hlt
          (by rw [List.length_take]; exact Nat.min_le_left _ _)
        rw [List.getElem?_take_of_lt htlt] at hframe
        exact hframe
      · rw [← he]
        exact hframe
    -- the mask rules out the real part
    have htl : l.length ≤ t := by
      by_contra hlt
      push_neg at hlt
      have : mrow.getD t 0 = 1 := by
        rw [hmrow]
        rw [List.getD_eq_getElem?_getD, List.getElem?_append_left
          (by simpa using hlt), List.getElem?_replicate, if_pos hlt]
        rfl
      exact hm this
    -- so frame is a padding frame, all -100
    rw [List.getElem?_append_right (by simpa using htl),
      List.getElem?_replicate] at hpadded
    by_cases hin : t - l.length < L - l.length
    · rw [if_pos hin] at hpadded
      have : frame = List.replicate m (-100) := (Option.some.inj hpadded).symm
      rw [this]
      intro v hv
      exact List.eq_of_mem_replicate hv
    · rw [if_neg hin] at hpadded
      cases hpadded
  · intro hrf
    have hmlL : maxLen ≤ L := by
      apply listMax_le
      intro a ha
      rcases List.mem_map.mp ha with ⟨l, hlmem, he⟩
      have h1 : a ≤ l.length := by omega
      exact le_trans h1 (le_listMax_of_mem (List.mem_map_of_mem List.length hlmem))
    constructor
    · intro row hrow
      rw [hlabels, if_pos hrf, List.map_map] at hrow
      rcases List.mem_map.mp hrow with ⟨l, hlmem, he⟩
      have hlen : l.length ≤ L :=
        le_listMax_of_mem (List.mem_map_of_mem List.length hlmem)
      rw [← he]
      simp only [Function.comp_apply, List.length_take, List.length_append,
        List.length_replicate]
      omega
    · apply dvd_listMax
      intro a ha
      rcases List.mem_map.mp ha with ⟨l, _, he⟩
      have hmd := Nat.mod_add_div l.length rf
      exact ⟨l.length / rf, by omega⟩

/-- Witness for C9 on a concrete two-feature batch with reduction factor 2
and one mel bin per frame. -/
theorem tts_collator_batch_invariant_witness :
    (∀ v ∈ ([-100] : List ℤ), v = -100)
    ∧ ((∀ row ∈ (ttsDataCollatorCall 2 1
          [⟨[1, 2], [[0], [1], [2]], []⟩, ⟨[3], [[5]], []⟩]).labels,
        row.length = listMax
          (([⟨[1, 2], [[0], [1], [2]], []⟩,
              ⟨[3], [[5]], []⟩].map TTSFeature.labels).map
            fun l => l.length - l.length % 2))
      ∧ 2 ∣ listMax
          (([⟨[1, 2], [[0], [1], [2]], []⟩,
              ⟨[3], [[5]], []⟩].map TTSFeature.labels).map
            fun l => l.length - l.length % 2)) :=
  ⟨(tts_collator_batch_invariant 2 1
      [⟨[1, 2], [[0], [1], [2]], []⟩, ⟨[3], [[5]], []⟩]).1
        1 1 [[5], [-100]] [1, 0, 0] [-100]
        (by decide) (by decide) (by decide) (by decide),
    (tts_collator_batch_invariant 2 1
      [⟨[1, 2], [[0], [1], [2]], []⟩, ⟨[3], [[5]], []⟩]).2 (by decide)⟩

/-! ## DocVQA length filter (unnamed DocVQA notebook)

```python
updated_dataset = updated_dataset.filter(
    lambda x: len(x["words"]) + len(x["question"].split()) < 512)
```
-/

/-- A DocVQA example after the question/answer flattening maps: document
id, image path (abstracted), OCR words with their boxes, answer and
question. -/
structure DocVQAExample where
  id : String
  image : String
  words : List String
  bounding_boxes : List (List ℚ)
  answer : String
  question : String
deriving DecidableEq

/-- Python `str.split()` with no argument: split on runs of whitespace,
discarding empty pieces (leading/trailing whitespace yields nothing). -/
def pySplit (s : String) : List String :=
  (s.split fun c => c.isWhitespace).filter fun w => w ≠ ""

/-- The filter predicate: OCR word count plus whitespace-separated question
word count strictly below 512. -/
def docvqa_length_ok (e : DocVQAExample) : Bool :=
  decide (e.words.length + (pySplit e.question).length < 512)

/-- `updated_dataset.filter(lambda x: ...)`. -/
def docvqa_filter (ds : List DocVQAExample) : List DocVQAExample :=
  ds.filter docvqa_length_ok

/-- **C10.** The DocVQA filtering step retains an example exactly when the
number of OCR words plus the number of whitespace-separated words of the
question is strictly less than 512. -/
theorem docvqa_filter_spec (ds : List DocVQAExample) (e : DocVQAExample) :
    e ∈ docvqa_filter ds
      ↔ e ∈ ds ∧ e.words.length + (pySplit e.question).length < 512 := by
  rw [docvqa_filter, List.mem_filter, docvqa_length_ok]
  simp

/-! ## Notebook cell ordering (all notebooks)

Each notebook is a linear sequence of cells; the lists below record, in
cell order, the workflow events of the code cells (cells that only plot,
print, or set constants are omitted). The cell numbers in the comments
index the code cells of each notebook file.
-/

/-- The workflow events a notebook cell can perform. `runInference true`
is inference with the model fine-tuned by this notebook,
`runInference false` inference with a separate pretrained model. -/
inductive NotebookStep
  | loadDataset
  | applyPreprocessing
  | instantiateModel
  | instantiateTrainer
  | trainerTrain
  | runInference (finetuned : Bool)
deriving DecidableEq

/-- Code-cell events of the image-captioning notebook
(01_image_captioning.ipynb, first document). -/
def imageCaptioningSteps : List NotebookStep :=
  [ .loadDataset            -- ds = load_dataset("lambdalabs/pokemon-blip-captions")
  , .applyPreprocessing     -- train_ds.set_transform(transforms); test_ds.set_transform(transforms)
  , .instantiateModel       -- model = AutoModelForCausalLM.from_pretrained(checkpoint)
  , .instantiateTrainer     -- trainer = Trainer(...)
  , .trainerTrain           -- trainer.train()
  , .runInference true ]    -- model.generate(pixel_values=..., max_length=50)

/-- Code-cell events of the VQA notebook (01_image_captioning.ipynb,
second document). -/
def vqaSteps : List NotebookStep :=
  [ .loadDataset            -- dataset = load_dataset("Graphcore/vqa", split="validation[:200]")
  , .applyPreprocessing     -- dataset = dataset.map(replace_ids)
  , .applyPreprocessing     -- processed_dataset = flat_dataset.map(preprocess_data, ...)
  , .instantiateModel       -- model = ViltForQuestionAnswering.from_pretrained(...)
  , .instantiateTrainer     -- trainer = Trainer(...)
  , .trainerTrain           -- trainer.train()
  , .runInference true      -- pipe = pipeline(..., model="vqa_vilt_finetuned"); pipe(image, question)
  , .runInference true      -- manual forward pass with the fine-tuned checkpoint
  , .runInference false ]   -- zero-shot BLIP-2: model.generate(**inputs, ...)

/-- Code-cell events of the TTS notebook (04_text_to_speech.ipynb). Its
very first code cell runs a text-to-speech pipeline demo with the
pretrained Bark model, before any fine-tuning. -/
def ttsSteps : List NotebookStep :=
  [ .runInference false     -- pipe = pipeline("text-to-speech", model="suno/bark-small"); output = pipe(text)
  , .loadDataset            -- dataset = load_dataset("facebook/voxpopuli", "nl", split="train")
  , .applyPreprocessing     -- dataset = dataset.map(cleanup_text)
  , .applyPreprocessing     -- dataset = dataset.filter(select_speaker, input_columns=["speaker_id"])
  , .applyPreprocessing     -- dataset = dataset.filter(is_not_too_long, input_columns=["input_ids"])
  , .applyPreprocessing     -- dataset = dataset.map(prepare_dataset, remove_columns=...)
  , .instantiateModel       -- model = SpeechT5ForTextToSpeech.from_pretrained(checkpoint)
  , .instantiateTrainer     -- trainer = Seq2SeqTrainer(...)
  , .trainerTrain           -- trainer.train()
  , .runInference true      -- pipe = pipeline(..., model="speecht5_finetuned_voxpopuli_nl"); pipe(text, ...)
  , .runInference true ]    -- model.generate_speech(inputs["input_ids"], speaker_embeddings)

/-- Code-cell events of the first unnamed fragment (a truncated copy of
the image-captioning notebook): it ends after the preprocessing step, with
no model, trainer, training or inference cells. -/
def part000Steps : List NotebookStep :=
  [ .loadDataset            -- ds = load_dataset("lambdalabs/pokemon-blip-captions")
  , .applyPreprocessing ]   -- train_ds.set_transform(transforms); test_ds.set_transform(transforms)

/-- Code-cell events of the second unnamed fragment (the DocVQA notebook):
it ends after the length filter, with no model, trainer, training or
inference cells. -/
def part001Steps : List NotebookStep :=
  [ .loadDataset            -- dataset = load_dataset("nielsr/docvqa_1200_examples")
  , .applyPreprocessing     -- updated_dataset = dataset.map(lambda ...) (query/answer flattening)
  , .applyPreprocessing ]   -- updated_dataset.filter(lambda x: len(x["words"]) + ... < 512)

/-- All five notebook documents of the repository, in file order. -/
def notebooks : List (List NotebookStep) :=
  [imageCaptioningSteps, vqaSteps, ttsSteps, part000Steps, part001Steps]

def isInference : NotebookStep → Bool
  | .runInference _ => true
  | _ => false

/-- The cells preceding the first `trainer.train()` call (the whole
notebook when it never trains). -/
def beforeTrain (steps : List NotebookStep) : List NotebookStep :=
  steps.takeWhile fun s => s ≠ NotebookStep.trainerTrain

/-- No inference cell precedes the first `trainer.train()` call. -/
def noInferenceBeforeTrain (steps : List NotebookStep) : Bool :=
  (beforeTrain steps).all fun s => !(isInference s)

/-- No inference cell using the fine-tuned model precedes the first
`trainer.train()` call. -/
def finetunedInferenceAfterTrain (steps : List NotebookStep) : Bool :=
  (beforeTrain steps).all fun s => s ≠ NotebookStep.runInference true

/-- The workflow events load → preprocess → model → trainer → train all
occur, first occurrences in that order. -/
def claimedWorkflowOrder (steps : List NotebookStep) : Bool :=
  match steps.findIdx? (fun s => s = NotebookStep.loadDataset),
      steps.findIdx? (fun s => s = NotebookStep.applyPreprocessing),
      steps.findIdx? (fun s => s = NotebookStep.instantiateModel),
      steps.findIdx? (fun s => s = NotebookStep.instantiateTrainer),
      steps.findIdx? (fun s => s = NotebookStep.trainerTrain) with
  | some a, some b, some c, some d, some e =>
      decide (a < b) && decide (b < c) && decide (c < d) && decide (d < e)
  | _, _, _, _, _ => false

/-- C8 as stated: every notebook loads, preprocesses, instantiates model
and trainer, trains — in that order — and never runs inference before
`trainer.train()`. -/
def claimedNotebookOrder (steps : List NotebookStep) : Bool :=
  claimedWorkflowOrder steps && noInferenceBeforeTrain steps

/-- **C8, counterexample.** The claim fails on the repository: the TTS
notebook's first code cell runs a text-to-speech inference pipeline (the
Bark demo) before any training, so inference is invoked before
`trainer.train()` there (and the two fragment notebooks never train at
all). -/
theorem notebook_order_counterexample :
    ¬ ∀ nb ∈ notebooks, claimedNotebookOrder nb = true := by
  decide

/-- **C8, amended.** In each of the three full notebooks the workflow steps
occur in the claimed order and all inference with the fine-tuned model
happens only after `trainer.train()`; in the image-captioning and VQA
notebooks no inference of any kind precedes training, while the TTS
notebook runs one introductory inference demo (with the separate
pretrained Bark model) before training; the two unnamed fragment notebooks
contain no training and no inference cells at all. -/
theorem notebook_order_amended :
    (claimedNotebookOrder imageCaptioningSteps = true)
    ∧ (claimedNotebookOrder vqaSteps = true)
    ∧ (claimedWorkflowOrder ttsSteps = true
        ∧ finetunedInferenceAfterTrain ttsSteps = true
        ∧ noInferenceBeforeTrain ttsSteps = false)
    ∧ (part000Steps.all (fun s => !(isInference s)) = true
        ∧ (part000Steps.all fun s => s ≠ NotebookStep.trainerTrain) = true)
    ∧ (part001Steps.all (fun s => !(isInference s)) = true
        ∧ (part001Steps.all fun s => s ≠ NotebookStep.trainerTrain) = true) := by
  decide

end MultimodalAI
